import Mathlib

/-!
Verification of the pythresh decision-procedure core against its
natural-language specification.

Scores are embedded as `List ℚ`.  Python floats are modelled by exact
rationals; NaN-producing operations (Student-t quantiles at nonpositive
degrees of freedom, 0/0 standardized deviations) are modelled by `Option ℚ`
with `none` for NaN, and every ordered comparison against `none` is `false`,
matching IEEE NaN comparison semantics.  Calls into external numeric
libraries (scipy distributions and filters, sklearn metrics/clustering
backends, the numpy Mersenne-Twister stream) are abstracted as fields of an
`Ext` environment; everything computed by the repository's own code is
translated directly.  Fallible Python code (raised exceptions) is embedded
with `Except PyErr`.
-/

namespace PyThresh

/-- Exceptions surfaced by the procedures: `degenerate` is the
DegenerateInputError of spec §7 (zero-range input), `valueError` models
Python/sklearn `ValueError` (malformed or too-short input), and `nameError`
models Python's `NameError` (use of a never-assigned local). -/
inductive PyErr where
  | degenerate
  | valueError
  | nameError
deriving DecidableEq

/-- Minimum of a list of scores (`np.min`); `none` on the empty array. -/
def listMin : List ℚ → Option ℚ
  | [] => none
  | x :: xs => some (xs.foldl min x)

/-- Maximum of a list of scores (`np.max`); `none` on the empty array. -/
def listMax : List ℚ → Option ℚ
  | [] => none
  | x :: xs => some (xs.foldl max x)

/-- `np.mean`: the arithmetic mean (0 on the empty array, where numpy
would emit NaN; no embedded call site reaches that case). -/
def npMean (xs : List ℚ) : ℚ := xs.sum / xs.length

/-- `np.sort`: ascending sort.  Rationals are totally ordered, so any
comparison sort returns the same list; we use insertion sort. -/
def npSort (xs : List ℚ) : List ℚ := List.insertionSort (· ≤ ·) xs

/-- `np.median`: middle element of the sorted array, or the mean of the two
middle elements for even length. -/
def npMedian (xs : List ℚ) : ℚ :=
  let s := npSort xs
  let n := xs.length
  if n % 2 = 1 then s.getD (n / 2) 0
  else (s.getD (n / 2 - 1) 0 + s.getD (n / 2) 0) / 2

/-- Population variance (`ddof=0`), the quantity under numpy's `np.std`:
`np.std xs = Real.sqrt (npVar xs)`.  The square root itself goes through
the abstract `Ext.sqrt`. -/
def npVar (xs : List ℚ) : ℚ :=
  npMean (xs.map (fun x => (x - npMean xs) ^ 2))

/-- `np.linspace lo hi m`: `m` evenly spaced points from `lo` to `hi`
inclusive. -/
def linspace (lo hi : ℚ) (m : ℕ) : List ℚ :=
  (List.range m).map (fun i : ℕ => lo + (hi - lo) * (i : ℚ) / ((m : ℚ) - 1))

/-- `np.round`: round half to even (banker's rounding). -/
def npRound (q : ℚ) : ℤ :=
  let f := ⌊q⌋
  let r := q - f
  if r < 1/2 then f
  else if 1/2 < r then f + 1
  else if f % 2 = 0 then f else f + 1

/-- First index of the maximal element (`np.argmax`); 0 on the empty
array (unreachable at the embedded call sites). -/
def argmaxIdx (xs : List ℚ) : ℕ :=
  match xs with
  | [] => 0
  | x :: rest =>
    (rest.foldl (fun st y =>
      let best := st.1
      let bestIdx := st.2.1
      let i := st.2.2
      if best < y then (y, i + 1, i + 1) else (best, bestIdx, i + 1))
      (x, 0, 0)).2.1

/-- Comparison `a > b` between possibly-NaN floats: any comparison with
NaN is `false`. -/
def gtO : Option ℚ → Option ℚ → Bool
  | some a, some b => decide (b < a)
  | _, _ => false

/-- Names for the `CLUST` clustering backends (clust.py lines 70-76). -/
inductive CMethod where
  | agg | birch | bang | bgm | bsas | dbscan | ema
  | kmeans | mbsas | mshift | optics | somsc | spec | xmeans
deriving DecidableEq

/-- Names for the `FILTER` signal-processing backends (filter.py lines 56-59). -/
inductive FMethod where
  | gaussian | savgol | hilbert | wiener | medfilt | decimate | detrend | resample
deriving DecidableEq

/-- Names for the `CHAU` center statistic (chau.py line 38). -/
inductive ChauMethod where
  | mean | median | gmean
deriving DecidableEq

/-- Abstract interface to the external numeric libraries, quantified over in
every theorem.  Each field is the input/output behaviour of one external
call; the repository's own arithmetic is never abstracted.

* `sqrt`     — `np.sqrt` on a nonnegative rational;
* `tppf`     — `scipy.stats.t.ppf q df`; `none` models the NaN scipy
  returns for `df ≤ 0`;
* `normppf`  — `scipy.stats.norm.ppf`;
* `erfc`     — `scipy.special.erfc`;
* `gmean`    — `scipy.stats.gmean`;
* `kde`      — the density values of `gen_kde data lo hi m` (thresh_utility
  is absent from `src/`; spec §4.2 fixes only the grid, which is rebuilt
  exactly as `linspace lo hi m`, and determinism);
* `rnd`      — the seeded `np.random.uniform 0 1` stream drawn by `EB`;
* `clusterIdx` — member indices of the first cluster reported by a
  pyclustering backend (after `CLUST._pyclust_eval`'s squeeze);
* `clusterLbl` — the 0/1 labelling returned by a sklearn backend
  (`cl.labels_`) or by `BayesianGaussianMixture.predict`;
* `filt`     — the filtered curve produced by the scipy filter backends of
  `FILTER` (complex-output backends are modelled by their real image);
* `moll`     — the smoothed curve of `MOLL._mollifier time position`
  (moll.py lines 59-105: scipy quad/interp/convolve pipeline);
* `findPeaks`  — `scipy.signal.find_peaks` at prominence 0.75;
* `peakWidths` — `scipy.signal.peak_widths` at relative height 0.99;
* `predict`  — the pretrained META classifier capability of spec §4.9. -/
structure Ext where
  sqrt : ℚ → ℚ
  tppf : ℚ → ℤ → Option ℚ
  normppf : ℚ → ℚ
  erfc : ℚ → ℚ
  gmean : List ℚ → ℚ
  kde : List ℚ → ℚ → ℚ → ℕ → List ℚ
  rnd : ℕ → ℚ
  clusterIdx : List ℚ → List ℕ
  clusterLbl : List ℚ → List ℕ
  filt : FMethod → List ℚ → ℚ → List ℚ
  moll : List ℚ → List ℚ → List ℚ
  findPeaks : List ℚ → List ℕ
  peakWidths : List ℚ → List ℕ → List ℚ
  predict : List ℚ → ℕ → List ℕ

/-- Modelled from the spec: `normalize` of `thresh_utility.py` is absent
from `src/`.  Spec §4.1: `y_i = (x_i − min x) / (max x − min x)`, raising
DegenerateInputError when `max x = min x` instead of propagating NaNs.
The empty array is rejected by the shared precondition check (§7). -/
def normalize (xs : List ℚ) : Except PyErr (List ℚ) :=
  match listMin xs, listMax xs with
  | some mn, some mx =>
      if mx = mn then .error .degenerate
      else .ok (xs.map (fun x => (x - mn) / (mx - mn)))
  | _, _ => .error .valueError

/-- Modelled from the spec: `cut` of `thresh_utility.py` is absent from
`src/`.  Spec §4.3: `labels_i = 1 if scores_i > limit else 0`, strictly
greater-than. -/
def cut (xs : List ℚ) (limit : ℚ) : List ℕ :=
  xs.map (fun x => if limit < x then 1 else 0)

/-- Modelled from the spec: `check_scores` of `thresh_utility.py` is absent
from `src/`.  Spec §4.4: with a 1-D input it is a no-op pass-through after
validation; only the 1-D usage is embedded. -/
def check_scores (xs : List ℚ) : Except PyErr (List ℚ) :=
  if xs = [] then .error .valueError else .ok xs

/-- Instance state of `CHAU` (chau.py): the chosen center statistic and the
last-computed threshold. -/
structure CHAU where
  method : ChauMethod
  thresh_ : Option ℚ
deriving DecidableEq

/-- The center statistic selected by `CHAU.__init__` (chau.py line 38). -/
def chauCenter (E : Ext) : ChauMethod → List ℚ → ℚ
  | .mean => npMean
  | .median => npMedian
  | .gmean => E.gmean

/-- `CHAU.eval` (chau.py lines 41-71): normalize, compute the one-tailed
Chauvenet criterion `1/|Φ⁻¹(1/(4n))|`, the erfc probabilities of the
standardized deviations from the chosen center, store the rescaled
threshold, and cut the probability array at the criterion. -/
def CHAU.eval (E : Ext) (s : CHAU) (decision : List ℚ) :
    Except PyErr (CHAU × List ℕ) := do
  let d ← normalize decision
  let Pz : ℚ := 1 / (4 * (d.length : ℚ))
  let criterion := 1 / |E.normppf Pz|
  let prob := d.map (fun x => E.erfc (|x - chauCenter E s.method d| / E.sqrt (npVar d)))
  let thresh := criterion * (1 - (listMin prob).getD 0) / (listMax prob).getD 0
  pure (⟨s.method, some thresh⟩, cut prob criterion)

/-- Instance state of `GESD` (gesd.py lines 34-37): `none` for
`max_outliers` models the string `'native'`. -/
structure GESD where
  max_outliers : Option ℕ
  alpha : ℚ
  thresh_ : Option ℚ
deriving DecidableEq

/-- `GESD._grubbs_stat` (gesd.py lines 80-86): maximal absolute deviation
from the mean, standardized by the population std, plus its first index.
`none` is the NaN of `0/0`: the real `y.std()` vanishes exactly when
`npVar y = 0`, and then every deviation is zero as well. -/
def grubbs_stat (E : Ext) (y : List ℚ) : Option ℚ × ℕ :=
  let dev := y.map (fun v => |v - npMean y|)
  let gs := if npVar y = 0 then none
            else some ((listMax dev).getD 0 / E.sqrt (npVar y))
  (gs, argmaxIdx dev)

/-- `GESD._calc_crit` (gesd.py lines 88-95); `none` propagates the NaN of
`t.ppf` at `size ≤ 2`. -/
def calc_crit (E : Ext) (size : ℕ) (alpha : ℚ) : Option ℚ :=
  (E.tppf (1 - alpha / (2 * (size : ℚ))) ((size : ℤ) - 2)).map (fun t =>
    ((size : ℚ) - 1) * E.sqrt (t ^ 2) /
      (E.sqrt (size : ℚ) * E.sqrt ((size : ℚ) - 2 + t ^ 2)))

/-- The `for i in range(max_outliers)` loop of `GESD.eval` (gesd.py lines
68-74): every iteration deletes the maximal deviate and lowers the running
limit to it when the Grubbs test confirms it; on an exhausted array the
Python code would crash in `np.argmax`, unreachable for a cap at most the
array length. -/
def gesdLoop (E : Ext) (alpha : ℚ) : ℕ → List ℚ → ℚ → ℚ
  | 0, _, limit => limit
  | _ + 1, [], limit => limit
  | k + 1, y :: ys, limit =>
      let arr := y :: ys
      let Gc := calc_crit E arr.length alpha
      let gi := grubbs_stat E arr
      let cand := arr.getD gi.2 0
      let limit' := if gtO gi.1 Gc ∧ cand < limit then cand else limit
      gesdLoop E alpha k (arr.eraseIdx gi.2) limit'

/-- `GESD.eval` (gesd.py lines 40-78), including the lines 65-66 overwrite
of `self.max_outliers` when the instance was constructed with `'native'`. -/
def GESD.eval (E : Ext) (s : GESD) (decision : List ℚ) :
    Except PyErr (GESD × List ℕ) := do
  let d ← normalize decision
  let cap := match s.max_outliers with
    | none => d.length / 2
    | some k => k
  let limit := gesdLoop E s.alpha cap d (11/10)
  pure (⟨some cap, s.alpha, some limit⟩, cut d limit)

/-- Instance state of `MTT` (mtt.py lines 47-49). -/
structure MTT where
  alpha : ℚ
  thresh_ : Option ℚ
deriving DecidableEq

/-- Tau critical value of one MTT iteration (mtt.py lines 79-81); `none`
propagates the NaN of `t.ppf` at `df = n - 2 ≤ 0`. -/
def mttThres (E : Ext) (alpha : ℚ) (n : ℕ) : Option ℚ :=
  (E.tppf alpha ((n : ℤ) - 2)).map (fun t =>
    t * ((n : ℚ) - 1) / (E.sqrt (n : ℚ) * E.sqrt ((n : ℚ) - 2 + t ^ 2)))

/-- Standardized deviation of the largest remaining element (mtt.py line
82); `none` is the NaN of `0/0` when the remaining scores are all equal
(the real std vanishes exactly when `npVar arr = 0`, and then the numerator
vanishes too). -/
def mttDelta (E : Ext) (arr : List ℚ) : Option ℚ :=
  if npVar arr = 0 then none
  else some (|arr.getLastD 0 - npMean arr| / E.sqrt (npVar arr))

/-- The rejection comparison `delta > thres` (mtt.py line 84); a NaN on
either side compares false. -/
def mttCond (E : Ext) (alpha : ℚ) (arr : List ℚ) : Bool :=
  gtO (mttDelta E arr) (mttThres E alpha arr.length)

/-- The unbounded `while True` of `MTT.eval` (mtt.py lines 76-89), with an
explicit fuel bounding the iteration count: every iteration either removes
the last (largest) element of the sorted working array or breaks, so at
most `arr.length` iterations run before the array is exhausted; on
exhausted fuel — or on the empty array, where the Python code would crash
at `arr[-1]` — the current state is returned. -/
def mttLoopF (E : Ext) (alpha : ℚ) : ℕ → List ℚ → ℚ → ℚ × List ℚ
  | 0, arr, limit => (limit, arr)
  | _ + 1, [], limit => (limit, [])
  | f + 1, y :: ys, limit =>
      let arr := y :: ys
      if mttCond E alpha arr then
        mttLoopF E alpha f arr.dropLast (arr.getLastD 0)
      else (limit, arr)

/-- The MTT loop at its natural fuel. -/
def mttLoop (E : Ext) (alpha : ℚ) (arr : List ℚ) (limit : ℚ) : ℚ × List ℚ :=
  mttLoopF E alpha arr.length arr limit

/-- `MTT.eval` (mtt.py lines 51-93). -/
def MTT.eval (E : Ext) (s : MTT) (decision : List ℚ) :
    Except PyErr (MTT × List ℕ) := do
  let d ← normalize decision
  let limit := (mttLoop E s.alpha (npSort d) (11/10)).1
  pure (⟨s.alpha, some limit⟩, cut d limit)

/-- Instance state of `CLUST` (clust.py lines 66-77; the lookup table of
bound methods is the dispatch in `CLUST.eval`). -/
structure CLUST where
  method : CMethod
  random_state : Option ℤ
  thresh_ : Option ℚ
deriving DecidableEq

/-- Label construction of `CLUST._pyclust_eval` (clust.py lines 116-117):
members of the backend's first cluster get 0, everything else 1. -/
def pyclustLabels (pred : List ℕ) (n : ℕ) : List ℕ :=
  (List.range n).map (fun i => if i ∈ pred then 0 else 1)

/-- The orientation flip shared by `_pyclust_eval` (clust.py lines
120-121), `_sklearn_eval` (lines 131-133) and `_BGM_clust` (lines 170-172):
`if sum(labels) > np.ceil(len(decision)/2): labels = 1 - labels`.
`(n + 1) / 2` is `⌈n/2⌉`; `1 - x` on the 0/1 entries produced by the
backends is the same in ℕ as in Python's ints. -/
def flipMaj (labels : List ℕ) : List ℕ :=
  if (labels.length + 1) / 2 < labels.sum then labels.map (fun x => 1 - x)
  else labels

/-- `CLUST._pyclust_eval` (clust.py lines 106-123) given the backend's
first-cluster membership. -/
def pyclust_eval (pred : List ℕ) (n : ℕ) : List ℕ :=
  flipMaj (pyclustLabels pred n)

/-- `CLUST._sklearn_eval` (clust.py lines 125-135) and the identical tail
of `_BGM_clust` (lines 161-174), given the backend labelling. -/
def sklearn_eval (labels : List ℕ) : List ℕ :=
  flipMaj labels

/-- `np.bincount(l).argmax()`: the smallest value of maximal multiplicity. -/
def bincountArgmax (l : List ℕ) : ℕ :=
  (List.range (l.foldr max 0 + 1)).foldl
    (fun best v => if l.count best < l.count v then v else best) 0

/-- Label construction of `CLUST._MSHIFT_clust` (clust.py lines 241-243):
the modal cluster is inlier, everything else outlier; no flip step. -/
def mshiftLabels (lbls : List ℕ) : List ℕ :=
  lbls.map (fun x => if x = bincountArgmax lbls then 0 else 1)

/-- `CLUST.eval` (clust.py lines 79-104) with the backend dispatch of the
lines 70-76 lookup table; backend outputs come from the environment. -/
def CLUST.eval (E : Ext) (s : CLUST) (decision : List ℚ) :
    Except PyErr (CLUST × List ℕ) := do
  let d ← normalize decision
  let labels := match s.method with
    | .agg | .bang | .bsas | .dbscan | .ema | .mbsas | .optics | .somsc | .xmeans =>
        pyclust_eval (E.clusterIdx d) d.length
    | .birch | .kmeans | .spec | .bgm => sklearn_eval (E.clusterLbl d)
    | .mshift => mshiftLabels (E.clusterLbl d)
  pure (⟨s.method, s.random_state, none⟩, labels)

/-- Instance state of `MAD` (mad.py). -/
structure MAD where
  thresh_ : Option ℚ
deriving DecidableEq

/-- `scipy.stats.median_abs_deviation(x, scale=s)`: the median absolute
deviation divided by `s`. -/
def median_abs_deviation (xs : List ℚ) (scale : ℚ) : ℚ :=
  npMedian (xs.map (fun x => |x - npMedian xs|)) / scale

/-- `MAD.eval` (mad.py lines 50-78). -/
def MAD.eval (E : Ext) (_s : MAD) (decision : List ℚ) :
    Except PyErr (MAD × List ℕ) := do
  let d ← normalize decision
  let limit := npMean d + median_abs_deviation d (E.sqrt (npVar d))
  pure (⟨some limit⟩, cut d limit)

/-- Trapezoidal sum `np.trapz y x` over paired points. -/
def trapzSum : List ℚ → List ℚ → ℚ
  | x0 :: x1 :: xs, y0 :: y1 :: ys =>
      (x1 - x0) * (y0 + y1) / 2 + trapzSum (x1 :: xs) (y1 :: ys)
  | _, _ => 0

/-- `sklearn.metrics.auc` on an increasing grid: trapezoidal area, raising
ValueError on fewer than two points or mismatched lengths. -/
def auc (xs ys : List ℚ) : Except PyErr ℚ :=
  if xs.length = ys.length ∧ 2 ≤ xs.length then .ok (trapzSum xs ys)
  else .error .valueError

/-- Instance state of `AUCP` (aucp.py). -/
structure AUCP where
  thresh_ : Option ℚ
deriving DecidableEq

/-- The left-to-right tail scan of `AUCP.eval` (aucp.py lines 90-97): at
each grid position compute the tail area from that position to the end and
stop at the first position where it drops strictly below `target`.  The
final `.ok 1` is the `limit = 1` default of line 90, reached only if the
loop runs off the end of the grid — which the single-point tail area of
the final position prevents by raising `ValueError` first. -/
def aucpScan (target : ℚ) : List ℚ → List ℚ → Except PyErr ℚ
  | [], [] => .ok 1
  | g :: gs, v :: vs => do
      let a ← auc (g :: gs) (v :: vs)
      if a < target then pure g else aucpScan target gs vs
  | _, _ => .error .valueError

/-- `AUCP.eval` (aucp.py lines 56-101). -/
def AUCP.eval (E : Ext) (_s : AUCP) (decision : List ℚ) :
    Except PyErr (AUCP × List ℕ) := do
  let d ← normalize decision
  let val ← normalize (E.kde d 0 1 (d.length * 2))
  let dat_range := linspace 0 1 (d.length * 2)
  let tot_area ← auc dat_range val
  let mean := npMean d
  let perc := mean + |mean - npMedian d|
  let limit ← aucpScan (perc * tot_area) dat_range val
  pure (⟨some limit⟩, cut d limit)

/-- Instance state of `EB` (eb.py). -/
structure EB where
  thresh_ : Option ℚ
deriving DecidableEq

/-- The elliptical cut point of eccentricity `e` (eb.py lines 82-83 and
95-96): semi-major axis `a = 1/(1+e)`, threshold `a*(1-e)`. -/
def ebThr (e : ℚ) : ℚ := 1 / (1 + e) * (1 - e)

/-- Inlier count at eccentricity `e` (eb.py lines 83-84 and 96-97). -/
def ebCount (d : List ℚ) (e : ℚ) : ℕ := d.length - (cut d (ebThr e)).sum

/-- One step of the Phase-2 scan of `EB.eval` (eb.py lines 98-100): the
state is `(close, limit)`; a candidate overwrites it only when its inlier
count is strictly closer to `med` than `close` is. -/
def ebStep (d : List ℚ) (med : ℚ) (st : ℚ × Option ℚ) (e : ℚ) : ℚ × Option ℚ :=
  if |med - (ebCount d e : ℚ)| < |med - st.1| then ((ebCount d e : ℚ), some (ebThr e))
  else st

/-- The full Phase-2 selection (eb.py lines 92-100): fold the step over the
5000 evenly spaced eccentricities in increasing order, starting from
`close = 0` with `limit` unassigned. -/
def ebPhase2 (d : List ℚ) (med : ℚ) : ℚ × Option ℚ :=
  (linspace 0 1 5000).foldl (ebStep d med) (0, none)

/-- `EB.eval` (eb.py lines 52-104); the 5000 seeded `np.random.uniform`
draws of Phase 1 are `E.rnd 0 .. E.rnd 4999`; a Phase 2 that never assigns
`limit` is the Python `NameError` raised at line 102. -/
def EB.eval (E : Ext) (_s : EB) (decision : List ℚ) :
    Except PyErr (EB × List ℕ) := do
  let d ← normalize decision
  let counts := (List.range 5000).map (fun i => (ebCount d (E.rnd i) : ℚ))
  let med : ℚ := npRound (npMedian counts)
  match (ebPhase2 d med).2 with
  | none => .error .nameError
  | some limit => pure (⟨some limit⟩, cut d limit)

/-- `np.max` of a possibly empty filtered curve: raises on the empty
array. -/
def npMaxOrErr (l : List ℚ) : Except PyErr ℚ :=
  match listMax l with
  | none => .error .valueError
  | some v => .ok v

/-- Instance state of `FILTER` (filter.py lines 52-61): `none` for `sigma`
models the string `'auto'`. -/
structure FILTER where
  method : FMethod
  sigma : Option ℚ
  thresh_ : Option ℚ
deriving DecidableEq

/-- `FILTER.eval` (filter.py lines 63-95): derive the local `sig`, filter
through the selected scipy backend, threshold at the maximum of the
filtered curve (`np.max` raises on an empty array). -/
def FILTER.eval (E : Ext) (s : FILTER) (decision : List ℚ) :
    Except PyErr (FILTER × List ℕ) := do
  let d ← normalize decision
  let sig := match s.sigma with
    | none => (d.length : ℚ) * E.sqrt (npVar d)
    | some v => v
  let limit ← npMaxOrErr (E.filt s.method d sig)
  pure (⟨s.method, s.sigma, some limit⟩, cut d limit)

/-- Instance state of `MOLL` (moll.py). -/
structure MOLL where
  thresh_ : Option ℚ
deriving DecidableEq

/-- `MOLL.eval` (moll.py lines 33-57): threshold `1 − max` of the
mollifier-smoothed sorted scores; the quad/interp/convolve pipeline of
`_mollifier` is the environment's `moll`. -/
def MOLL.eval (E : Ext) (_s : MOLL) (decision : List ℚ) :
    Except PyErr (MOLL × List ℕ) := do
  let dat_range := linspace 0 1 decision.length
  let d ← normalize decision
  let m ← npMaxOrErr (E.moll dat_range (npSort d))
  pure (⟨some (1 - m)⟩, cut d (1 - m))

/-- Instance state of `FWFM` (fwfm.py lines 39-41 and the `dscores_`
attribute recorded by eval). -/
structure FWFM where
  random_state : ℤ
  thresh_ : Option ℚ
  dscores_ : Option (List ℚ)
deriving DecidableEq

/-- `FWFM.eval` (fwfm.py lines 43-82): KDE over `[-1,1]` at `3n` points,
re-normalized; threshold is the first detected peak's width at 99% relative
height divided by the curve length, else the all-inlier default 1.1; the
normalized scores are recorded as `dscores_`. -/
def FWFM.eval (E : Ext) (s : FWFM) (decision : List ℚ) :
    Except PyErr (FWFM × List ℕ) := do
  let d0 ← check_scores decision
  let d ← normalize d0
  let val ← normalize (E.kde d (-1) 1 (d.length * 3))
  let base_width := E.peakWidths val (E.findPeaks val)
  let limit := match base_width with
    | [] => 11/10
    | w :: _ => w / (val.length : ℚ)
  pure (⟨s.random_state, some limit, some d⟩, cut d limit)

/-- Names for the META classifier choice (meta.py line 25). -/
inductive MMethod where
  | LIN | GNB
deriving DecidableEq

/-- Instance state of `META` (meta.py lines 58-60). -/
structure META where
  method : MMethod
  thresh_ : Option ℚ
deriving DecidableEq

/-- Per-position mode across the retained label vectors
(`scipy.stats.mode(contam, axis=0)` followed by `np.squeeze`): the smallest
most-common value at each of the `n` positions. -/
def metaMode (n : ℕ) (contam : List (List ℕ)) : List ℕ :=
  (List.range n).map (fun j => bincountArgmax (contam.map (fun v => v.getD j 0)))

/-- `META.eval` (meta.py lines 62-108): query the pretrained classifier for
each of the 380 stored groups, retain the label vectors whose outlier ratio
lies strictly in `(0, 1/2)`, and majority-vote per position; with nothing
retained the mode of the empty stack collapses to an empty label vector. -/
def META.eval (E : Ext) (s : META) (decision : List ℚ) :
    Except PyErr (META × List ℕ) := do
  let d ← normalize decision
  let contam := (List.range 380).filterMap (fun i =>
    let labels := E.predict d i
    let ratio : ℚ := (labels.sum : ℚ) / (d.length : ℚ)
    if ratio < 1/2 ∧ 0 < ratio then some labels else none)
  let lbls := if contam = [] then [] else metaMode d.length contam
  pure (⟨s.method, none⟩, lbls)

instance {ε α : Type} [DecidableEq ε] [DecidableEq α] : DecidableEq (Except ε α) := fun x y =>
  match x, y with
  | .ok a, .ok b =>
      if h : a = b then .isTrue (by rw [h])
      else .isFalse (fun he => h (Except.ok.inj he))
  | .error a, .error b =>
      if h : a = b then .isTrue (by rw [h])
      else .isFalse (fun he => h (Except.error.inj he))
  | .ok _, .error _ => .isFalse (fun he => Except.noConfusion he)
  | .error _, .ok _ => .isFalse (fun he => Except.noConfusion he)


/-- Spec-side restatement of the AUCP stopping rule (spec §4.5): the first
grid position whose tail area falls strictly below the target — among the
positions whose tail still has at least two points, the only ones whose
area exists. -/
def aucpFirst (target : ℚ) (g v : List ℚ) : Option ℕ :=
  (List.range (g.length - 1)).find?
    (fun j => decide (trapzSum (g.drop j) (v.drop j) < target))

/-! ### Concrete environments used by witnesses and counterexamples -/

/-- A benign concrete environment; its `tppf` returns NaN exactly on
nonpositive degrees of freedom, as scipy's `t.ppf` does. -/
def E0 : Ext :=
  ⟨fun _ => 1, fun _ df => if df ≤ 0 then none else some 1, fun _ => -2,
   fun q => q, fun _ => 0, fun _ _ _ m => linspace 0 1 m, fun _ => 1/2,
   fun _ => [], fun _ => [], fun _ d _ => d, fun _ p => p, fun _ => [],
   fun _ _ => [], fun _ _ => []⟩

/-- Environment whose clustering backend groups the three smallest of five
scores into cluster 1 — a perfectly legal 2-clustering answer. -/
def Ecex2 : Ext :=
  ⟨fun _ => 1, fun _ df => if df ≤ 0 then none else some 1, fun _ => -2,
   fun q => q, fun _ => 0, fun _ _ _ m => linspace 0 1 m, fun _ => 1/2,
   fun _ => [], fun _ => [1, 1, 1, 0, 0], fun _ d _ => d, fun _ p => p, fun _ => [],
   fun _ _ => [], fun _ _ => []⟩

/-- Environment with the concrete values needed to evaluate `CHAU.eval` on
`[0, 1]`: `sqrt (1/4) = 1/2` (exact), `erfc ≡ 3/4`, `Φ⁻¹(1/8) = -2`. -/
def Ecex3 : Ext :=
  ⟨fun q => if q = 1/4 then 1/2 else 0, fun _ _ => none, fun _ => -2,
   fun _ => 3/4, fun _ => 0, fun _ _ _ m => linspace 0 1 m, fun _ => 1/2,
   fun _ => [], fun _ => [], fun _ d _ => d, fun _ p => p, fun _ => [],
   fun _ _ => [], fun _ _ => []⟩

/-- Environment matching scipy/numpy to four decimals on the values that
`GESD.eval` needs for the input `[0, 9/10, 19/20, 1]` at `alpha = 1/20`:
`t.ppf(1 - (1/20)/8, 2) = 8.8602 ≈ 443/50`, `sqrt(1091/6400) = 0.41288`
(the population std of the scores), `sqrt((443/50)^2) = 443/50`,
`sqrt 4 = 2`, and `sqrt(2 + (443/50)^2) = 8.9721`. -/
def Ecex5 : Ext :=
  ⟨fun q => if q = 1091/6400 then 33030/80000
            else if q = 196249/2500 then 443/50
            else if q = 4 then 2
            else if q = 201249/2500 then 89721/10000 else 0,
   fun _ _ => some (443/50), fun _ => -2,
   fun q => q, fun _ => 0, fun _ _ _ m => linspace 0 1 m, fun _ => 1/2,
   fun _ => [], fun _ => [], fun _ d _ => d, fun _ p => p, fun _ => [],
   fun _ _ => [], fun _ _ => []⟩

/-- Environment whose density estimate rises towards the right end of the
grid: `gen_kde` returns the (already normalized) curve `[0, 0, 0, 1]`. -/
def Ecex6 : Ext :=
  ⟨fun _ => 1, fun _ _ => none, fun _ => -2,
   fun q => q, fun _ => 0, fun _ _ _ _ => [0, 0, 0, 1], fun _ => 1/2,
   fun _ => [], fun _ => [], fun _ d _ => d, fun _ p => p, fun _ => [],
   fun _ _ => [], fun _ _ => []⟩

/-! ### Helper lemmas -/

lemma foldl_min_le_init : ∀ (t : List ℚ) (a : ℚ), t.foldl min a ≤ a
  | [], _ => le_refl _
  | b :: t, a => by
      simp only [List.foldl_cons]
      exact le_trans (foldl_min_le_init t (min a b)) (min_le_left a b)

lemma foldl_min_le_mem : ∀ (t : List ℚ) (a x : ℚ), x ∈ t → t.foldl min a ≤ x := by
  intro t
  induction t with
  | nil => intro a x hx; cases hx
  | cons b t ih =>
      intro a x hx
      simp only [List.foldl_cons]
      rcases List.mem_cons.mp hx with h | h
      · subst h
        exact le_trans (foldl_min_le_init t (min a x)) (min_le_right a x)
      · exact ih (min a b) x h

lemma foldl_max_init_le : ∀ (t : List ℚ) (a : ℚ), a ≤ t.foldl max a
  | [], _ => le_refl _
  | b :: t, a => by
      simp only [List.foldl_cons]
      exact le_trans (le_max_left a b) (foldl_max_init_le t (max a b))

lemma foldl_max_mem_le : ∀ (t : List ℚ) (a x : ℚ), x ∈ t → x ≤ t.foldl max a := by
  intro t
  induction t with
  | nil => intro a x hx; cases hx
  | cons b t ih =>
      intro a x hx
      simp only [List.foldl_cons]
      rcases List.mem_cons.mp hx with h | h
      · subst h
        exact le_trans (le_max_right a x) (foldl_max_init_le t (max a x))
      · exact ih (max a b) x h

lemma listMin_le {xs : List ℚ} {mn : ℚ} (h : listMin xs = some mn) :
    ∀ x ∈ xs, mn ≤ x := by
  match xs with
  | [] => simp [listMin] at h
  | a :: t =>
      simp only [listMin, Option.some.injEq] at h
      intro x hx
      rcases List.mem_cons.mp hx with hxa | hxt
      · exact h ▸ hxa ▸ foldl_min_le_init t a
      · exact h ▸ foldl_min_le_mem t a x hxt

lemma le_listMax {xs : List ℚ} {mx : ℚ} (h : listMax xs = some mx) :
    ∀ x ∈ xs, x ≤ mx := by
  match xs with
  | [] => simp [listMax] at h
  | a :: t =>
      simp only [listMax, Option.some.injEq] at h
      intro x hx
      rcases List.mem_cons.mp hx with hxa | hxt
      · exact h ▸ hxa ▸ foldl_max_init_le t a
      · exact h ▸ foldl_max_mem_le t a x hxt

lemma foldl_min_const (c : ℚ) : ∀ (t : List ℚ), (∀ y ∈ t, y = c) → t.foldl min c = c
  | [], _ => rfl
  | b :: t, h => by
      have hb : b = c := h b (List.mem_cons_self b t)
      have hs : min c b = c := by rw [hb, min_self]
      simp only [List.foldl_cons, hs]
      exact foldl_min_const c t (fun y hy => h y (List.mem_cons_of_mem b hy))

lemma foldl_max_const (c : ℚ) : ∀ (t : List ℚ), (∀ y ∈ t, y = c) → t.foldl max c = c
  | [], _ => rfl
  | b :: t, h => by
      have hb : b = c := h b (List.mem_cons_self b t)
      have hs : max c b = c := by rw [hb, max_self]
      simp only [List.foldl_cons, hs]
      exact foldl_max_const c t (fun y hy => h y (List.mem_cons_of_mem b hy))

lemma listMin_const (c : ℚ) : ∀ (xs : List ℚ), (∀ y ∈ xs, y = c) → xs ≠ [] →
    listMin xs = some c
  | [], _, hne => absurd rfl hne
  | a :: t, h, _ => by
      have ha : a = c := h a (List.mem_cons_self a t)
      subst ha
      simp only [listMin, Option.some.injEq]
      exact foldl_min_const a t (fun y hy => h y (List.mem_cons_of_mem a hy))

lemma listMax_const (c : ℚ) : ∀ (xs : List ℚ), (∀ y ∈ xs, y = c) → xs ≠ [] →
    listMax xs = some c
  | [], _, hne => absurd rfl hne
  | a :: t, h, _ => by
      have ha : a = c := h a (List.mem_cons_self a t)
      subst ha
      simp only [listMax, Option.some.injEq]
      exact foldl_max_const a t (fun y hy => h y (List.mem_cons_of_mem a hy))

/-- A constant, nonempty score array makes the spec-modelled `normalize`
raise DegenerateInputError. -/
lemma normalize_const {xs : List ℚ} {c : ℚ} (h : ∀ y ∈ xs, y = c) (hne : xs ≠ []) :
    normalize xs = .error .degenerate := by
  unfold normalize
  rw [listMin_const c xs h hne, listMax_const c xs h hne]
  simp

lemma normalize_length {xs ys : List ℚ} (h : normalize xs = .ok ys) :
    ys.length = xs.length := by
  unfold normalize at h
  cases hmn : listMin xs with
  | none => rw [hmn] at h; cases hmx : listMax xs <;> rw [hmx] at h <;> simp at h
  | some mn =>
      rw [hmn] at h
      cases hmx : listMax xs with
      | none => rw [hmx] at h; simp at h
      | some mx =>
          rw [hmx] at h
          by_cases he : mx = mn
          · simp [he] at h
          · simp [he] at h
            rw [← h]
            exact List.length_map xs _

lemma normalize_le_one {xs ys : List ℚ} (h : normalize xs = .ok ys) :
    ∀ y ∈ ys, y ≤ 1 := by
  unfold normalize at h
  cases hmn : listMin xs with
  | none => rw [hmn] at h; cases hmx : listMax xs <;> rw [hmx] at h <;> simp at h
  | some mn =>
      rw [hmn] at h
      cases hmx : listMax xs with
      | none => rw [hmx] at h; simp at h
      | some mx =>
          rw [hmx] at h
          by_cases he : mx = mn
          · simp [he] at h
          · simp [he] at h
            intro y hy
            rw [← h] at hy
            obtain ⟨x, hx, rfl⟩ := List.mem_map.mp hy
            have h1 : mn ≤ x := listMin_le hmn x hx
            have h2 : x ≤ mx := le_listMax hmx x hx
            have h3 : mn < mx := lt_of_le_of_ne (le_trans h1 h2) (Ne.symm he)
            rw [div_le_one (by linarith)]
            linarith

lemma count_one_cut (xs : List ℚ) (l : ℚ) :
    (cut xs l).count 1 = xs.countP (fun x => decide (l < x)) := by
  induction xs with
  | nil => rfl
  | cons a t ih =>
      by_cases h : l < a
      · simp [cut, List.count_cons, List.countP_cons, h] at *
        omega
      · simp [cut, List.count_cons, List.countP_cons, h] at *
        omega

lemma sum_eq_count_one : ∀ {l : List ℕ}, (∀ x ∈ l, x ≤ 1) → l.sum = l.count 1
  | [], _ => rfl
  | a :: t, h => by
      have ha : a ≤ 1 := h a (List.mem_cons_self a t)
      have ht := sum_eq_count_one (fun x hx => h x (List.mem_cons_of_mem a hx))
      interval_cases a
      · simp [List.count_cons, ht]
      · simp [List.count_cons, ht]
        omega

lemma count_one_flip_add : ∀ {l : List ℕ}, (∀ x ∈ l, x ≤ 1) →
    (l.map (fun x => 1 - x)).count 1 + l.count 1 = l.length
  | [], _ => rfl
  | a :: t, h => by
      have ha : a ≤ 1 := h a (List.mem_cons_self a t)
      have ht := count_one_flip_add (fun x hx => h x (List.mem_cons_of_mem a hx))
      interval_cases a
      · simp [List.count_cons, List.map_cons]
        omega
      · simp [List.count_cons, List.map_cons]
        omega

lemma pyclustLabels_le_one (pred : List ℕ) (n : ℕ) :
    ∀ x ∈ pyclustLabels pred n, x ≤ 1 := by
  intro x hx
  obtain ⟨i, _, rfl⟩ := List.mem_map.mp hx
  by_cases h : i ∈ pred <;> simp [h]

lemma pyclustLabels_length (pred : List ℕ) (n : ℕ) :
    (pyclustLabels pred n).length = n := by
  simp [pyclustLabels]

/-- A NaN on the right of `>` always compares false. -/
lemma gtO_none_right (x : Option ℚ) : gtO x none = false := by
  cases x <;> rfl

lemma get?_last_cons : ∀ (y : ℚ) (ys : List ℚ),
    (y :: ys).get? ys.length = some ((y :: ys).getLastD 0)
  | _, [] => rfl
  | y, b :: t => by
      have ih := get?_last_cons b t
      simp only [List.length_cons]
      rw [show ((y :: b :: t).get? (t.length + 1)) = (b :: t).get? t.length from rfl, ih]
      simp [List.getLastD]

/-- Shape of the MTT loop result: either nothing was removed, or the final
working array is a proper initial segment of the input and the final limit
is the input element sitting right after it (the last element removed). -/
lemma mttLoopF_spec (E : Ext) (alpha : ℚ) :
    ∀ (f : ℕ) (arr : List ℚ) (limit : ℚ), ∃ lim' arr',
      mttLoopF E alpha f arr limit = (lim', arr') ∧
      ((lim' = limit ∧ arr' = arr) ∨
        (arr'.length < arr.length ∧ arr' = arr.take arr'.length ∧
         arr.get? arr'.length = some lim')) := by
  intro f
  induction f with
  | zero => intro arr limit; exact ⟨limit, arr, rfl, Or.inl ⟨rfl, rfl⟩⟩
  | succ f ih =>
      intro arr limit
      match arr with
      | [] => exact ⟨limit, [], rfl, Or.inl ⟨rfl, rfl⟩⟩
      | y :: ys =>
          by_cases hc : mttCond E alpha (y :: ys)
          · have hred : mttLoopF E alpha (f + 1) (y :: ys) limit
                = mttLoopF E alpha f (y :: ys).dropLast ((y :: ys).getLastD 0) := by
              simp [mttLoopF, hc]
            obtain ⟨lim', arr', heq, hcase⟩ := ih (y :: ys).dropLast ((y :: ys).getLastD 0)
            have hlen' : (y :: ys).dropLast.length = ys.length := by
              simp [List.length_dropLast]
            refine ⟨lim', arr', by rw [hred, heq], Or.inr ?_⟩
            rcases hcase with ⟨h1, h2⟩ | ⟨h1, h2, h3⟩
            · subst h2
              refine ⟨by simp [hlen'], ?_, ?_⟩
              · rw [hlen', List.dropLast_eq_take]
                simp
              · rw [hlen', h1]
                exact get?_last_cons y ys
            · have hlt : arr'.length < ys.length := by rw [← hlen']; exact h1
              refine ⟨by simp; omega, ?_, ?_⟩
              · have hmin : min arr'.length ((y :: ys).length - 1) = arr'.length := by
                  simp only [List.length_cons, Nat.add_sub_cancel]
                  omega
                rw [List.dropLast_eq_take, List.take_take, hmin] at h2
                exact h2
              · rw [← h3, List.dropLast_eq_take, List.get?_eq_getElem?,
                    List.get?_eq_getElem?, List.getElem?_take_of_lt]
                simp only [List.length_cons]
                omega
          · exact ⟨limit, y :: ys, by simp [mttLoopF, hc], Or.inl ⟨rfl, rfl⟩⟩

/-- Under the NaN behaviour of `t.ppf` at nonpositive degrees of freedom,
the MTT loop can never shrink the working array below two elements: at
length two the Tau critical value is NaN and the rejection comparison is
false. -/
lemma mttLoopF_two_le (E : Ext) (alpha : ℚ)
    (hdf : ∀ (q : ℚ) (df : ℤ), df ≤ 0 → E.tppf q df = none) :
    ∀ (f : ℕ) (arr : List ℚ) (limit : ℚ), 2 ≤ arr.length →
      2 ≤ (mttLoopF E alpha f arr limit).2.length := by
  intro f
  induction f with
  | zero => intro arr limit h2; exact h2
  | succ f ih =>
      intro arr limit h2
      match arr with
      | y :: ys =>
          by_cases hc : mttCond E alpha (y :: ys)
          · have hne2 : (y :: ys).length ≠ 2 := by
              intro hl
              have hth : mttThres E alpha (y :: ys).length = none := by
                rw [hl]
                unfold mttThres
                rw [hdf alpha ((((2 : ℕ) : ℤ)) - 2) (by norm_num)]
                rfl
              have : mttCond E alpha (y :: ys) = false := by
                unfold mttCond
                rw [hth, gtO_none_right]
              simp [this] at hc
            have h3 : 3 ≤ (y :: ys).length := by
              simp only [List.length_cons] at *
              omega
            have hred : mttLoopF E alpha (f + 1) (y :: ys) limit
                = mttLoopF E alpha f (y :: ys).dropLast ((y :: ys).getLastD 0) := by
              simp [mttLoopF, hc]
            rw [hred]
            refine ih (y :: ys).dropLast _ ?_
            rw [List.length_dropLast]
            omega
          · simpa [mttLoopF, hc] using h2

/-- In a nondecreasing list, the number of elements strictly above the
element at index `m` is bounded by the number of positions after `m`. -/
lemma countP_lt_of_sorted :
    ∀ (s : List ℚ), s.Sorted (· ≤ ·) → ∀ (m : ℕ) (v : ℚ), s.get? m = some v →
      s.countP (fun x => decide (v < x)) + m + 1 ≤ s.length := by
  intro s
  induction s with
  | nil => intro _ m v h; simp at h
  | cons b t ih =>
      intro hs m v hv
      obtain ⟨hble, hts⟩ := List.sorted_cons.mp hs
      match m with
      | 0 =>
          have hvb : b = v := by simpa using hv
          subst hvb
          have hirr : ¬ (b < b) := lt_irrefl b
          have hle : t.countP (fun x => decide (b < x)) ≤ t.length :=
            List.countP_le_length _
          simp only [List.countP_cons, List.length_cons, decide_eq_true_eq]
          simp [hirr]
          omega
      | m + 1 =>
          have hvt : t.get? m = some v := hv
          have hvmem : v ∈ t := List.get?_mem hvt
          have : ¬ (v < b) := not_lt.mpr (hble v hvmem)
          have hcount := ih hts m v hvt
          simp only [List.countP_cons, List.length_cons, decide_eq_true_eq]
          simp [this]
          omega


lemma bind_error {α β : Type} (e : PyErr) (f : α → Except PyErr β) :
    (Except.error e : Except PyErr α) >>= f = Except.error e := rfl

lemma bind_ok {α β : Type} (a : α) (f : α → Except PyErr β) :
    (Except.ok a : Except PyErr α) >>= f = f a := rfl

/-- Destructure a successful monadic computation into its first step and
its continuation. -/
lemma bind_eq_ok {α β : Type} {x : Except PyErr α} {f : α → Except PyErr β} {b : β}
    (h : x >>= f = .ok b) : ∃ a, x = .ok a ∧ f a = .ok b := by
  cases x with
  | error e => rw [bind_error] at h; cases h
  | ok a => exact ⟨a, rfl, h⟩

lemma pure_eq_ok {α : Type} {a b : α} (h : (pure a : Except PyErr α) = .ok b) :
    a = b := Except.ok.inj h

lemma E0_tppf_nan : ∀ (q : ℚ) (df : ℤ), df ≤ 0 → E0.tppf q df = none := by
  intro q df h
  simp [E0, h]

/-- The AUCP tail scan agrees with the first-position rule on the grid
positions that still have a two-point tail, and raises `ValueError` when no
such position fires — the `limit = 1` default is unreachable. -/
lemma aucpScan_spec :
    ∀ (g v : List ℚ) (target : ℚ), g.length = v.length → 2 ≤ g.length →
      aucpScan target g v =
        (match aucpFirst target g v with
          | some j => .ok (g.getD j 0)
          | none => .error .valueError) := by
  intro g
  induction g with
  | nil => intro v t hlen h2; simp at h2
  | cons g0 gs ih =>
      intro v t hlen h2
      match v with
      | [] => simp at hlen
      | v0 :: vs =>
          have hlen' : gs.length = vs.length := by simpa using hlen
          have hgs1 : 1 ≤ gs.length := by
            simp only [List.length_cons] at h2
            omega
          obtain ⟨n, hn⟩ : ∃ n, gs.length = n + 1 := ⟨gs.length - 1, by omega⟩
          have hauc : auc (g0 :: gs) (v0 :: vs) =
              .ok (trapzSum (g0 :: gs) (v0 :: vs)) := by
            unfold auc
            rw [if_pos ⟨by simpa using hlen, h2⟩]
          have hscan : aucpScan t (g0 :: gs) (v0 :: vs)
              = if trapzSum (g0 :: gs) (v0 :: vs) < t then .ok g0
                else aucpScan t gs vs := by
            simp only [aucpScan, hauc, bind_ok]
            rfl
          have hfirst : aucpFirst t (g0 :: gs) (v0 :: vs)
              = if trapzSum (g0 :: gs) (v0 :: vs) < t then some 0
                else (aucpFirst t gs vs).map Nat.succ := by
            unfold aucpFirst
            simp only [List.length_cons, Nat.add_sub_cancel]
            rw [hn, List.range_succ_eq_map]
            by_cases hp : trapzSum (g0 :: gs) (v0 :: vs) < t
            · rw [if_pos hp]
              have : (fun j => decide
                  (trapzSum ((g0 :: gs).drop j) ((v0 :: vs).drop j) < t)) 0 = true := by
                simpa using hp
              simp only [List.find?, this]
            · rw [if_neg hp]
              have hp0 : (fun j => decide
                  (trapzSum ((g0 :: gs).drop j) ((v0 :: vs).drop j) < t)) 0 = false := by
                simpa using hp
              simp only [List.find?, hp0]
              rw [List.find?_map]
              simp only [Nat.add_sub_cancel]
              rfl
          rw [hscan, hfirst]
          by_cases hp : trapzSum (g0 :: gs) (v0 :: vs) < t
          · rw [if_pos hp, if_pos hp]
            rfl
          · rw [if_neg hp, if_neg hp]
            rcases Nat.lt_or_ge gs.length 2 with hsmall | hbig
            · have h1 : gs.length = 1 := by omega
              cases gs with
              | nil => simp at h1
              | cons g1 gs' =>
                  cases gs' with
                  | cons a b => simp at h1
                  | nil =>
                      cases vs with
                      | nil => simp at hlen'
                      | cons v1 vs' =>
                          cases vs' with
                          | cons a b => simp at hlen'
                          | nil => simp [aucpScan, aucpFirst, auc, bind_error]
            · rw [ih vs t hlen' hbig]
              cases hf : aucpFirst t gs vs with
              | none => rfl
              | some j => rfl

/-- The scan grid of EB Phase 2 is strictly increasing. -/
lemma linspace_increasing (m : ℕ) (h2 : 2 ≤ m) :
    (linspace 0 1 m).Pairwise (· < ·) := by
  have h0 : (0:ℚ) < (m : ℚ) - 1 := by
    have hm : (2:ℚ) ≤ (m:ℚ) := by exact_mod_cast h2
    linarith
  unfold linspace
  refine List.Pairwise.map (fun i : ℕ => (0:ℚ) + (1 - 0) * (i:ℚ) / ((m:ℚ) - 1))
    (fun a b hab => ?_) (List.pairwise_lt_range m)
  have hab2 : (a : ℚ) < b := by exact_mod_cast hab
  simp only [zero_add, sub_zero, one_mul]
  rw [div_lt_div_iff₀ h0 h0]
  exact mul_lt_mul_of_pos_right hab2 h0

/-- The GESD cap violation is robust: for every environment whose
`t.ppf(159/160, 2)` value and square roots lie in these wide brackets
around the true scipy/numpy values (`t' ≈ 8.8604`, `√(1091/6400) ≈ 0.41288`,
`√4 = 2`, `√(2+t'²) ≈ 8.9723`), GESD with cap 1 on `[0, 9/10, 19/20, 1]`
confirms the minimum score as the extreme deviate, sets the threshold to 0
and flags three elements. -/
lemma gesd_cap_violation_robust (E : Ext) (t' : ℚ)
    (ht : E.tppf (159/160) 2 = some t')
    (hs1a : 2/5 ≤ E.sqrt (1091/6400)) (hs1b : E.sqrt (1091/6400) ≤ 21/50)
    (hs2 : E.sqrt (t' ^ 2) ≤ 93/10)
    (hs3 : 199/100 ≤ E.sqrt 4)
    (hs4 : 86/10 ≤ E.sqrt (2 + t' ^ 2)) :
    GESD.eval E ⟨some 1, 1/20, none⟩ [0, 9/10, 19/20, 1] =
      .ok (⟨some 1, 1/20, some 0⟩, [0, 1, 1, 1]) := by
  norm_num [GESD.eval, normalize, listMin, listMax, gesdLoop, calc_crit,
    grubbs_stat, argmaxIdx, npVar, npMean, cut, gtO, bind_ok,
    bind_error, min_def, max_def, abs_of_nonneg, abs_of_nonpos, ht]
  have key : 3 * E.sqrt (t' ^ 2) / (E.sqrt 4 * E.sqrt (2 + t' ^ 2)) <
      57 / 80 / E.sqrt (1091 / 6400) := by
    have hden : (0:ℚ) < E.sqrt 4 * E.sqrt (2 + t' ^ 2) := by nlinarith
    have hs1pos : (0:ℚ) < E.sqrt (1091/6400) := by linarith
    rw [div_lt_div_iff₀ hden hs1pos]
    have h1 : E.sqrt (t' ^ 2) * E.sqrt (1091/6400) ≤ (93/10) * (21/50) := by
      apply mul_le_mul hs2 hs1b (by linarith) (by norm_num)
    have h2 : (199/100) * (86/10) ≤ E.sqrt 4 * E.sqrt (2 + t' ^ 2) := by
      apply mul_le_mul hs3 hs4 (by norm_num) (by linarith)
    nlinarith [h1, h2]
  refine ⟨key, ?_, ?_, ?_, ?_⟩ <;> norm_num [key]

/-! ### Claims -/

/-- C7: on a constant score array, every decision procedure's `eval`
raises DegenerateInputError (propagated from the spec-modelled
`normalize`, whose zero-range guard fires) instead of returning a label
vector. -/
theorem C7_degenerate_all :
    ∀ (E : Ext) (c : ℚ) (xs : List ℚ), (∀ y ∈ xs, y = c) → xs ≠ [] →
      (∀ s, AUCP.eval E s xs = .error .degenerate) ∧
      (∀ s, CHAU.eval E s xs = .error .degenerate) ∧
      (∀ s, CLUST.eval E s xs = .error .degenerate) ∧
      (∀ s, EB.eval E s xs = .error .degenerate) ∧
      (∀ s, FILTER.eval E s xs = .error .degenerate) ∧
      (∀ s, FWFM.eval E s xs = .error .degenerate) ∧
      (∀ s, GESD.eval E s xs = .error .degenerate) ∧
      (∀ s, MAD.eval E s xs = .error .degenerate) ∧
      (∀ s, META.eval E s xs = .error .degenerate) ∧
      (∀ s, MOLL.eval E s xs = .error .degenerate) ∧
      (∀ s, MTT.eval E s xs = .error .degenerate) := by
  intro E c xs hconst hne
  have hn := normalize_const hconst hne
  refine ⟨fun s => ?_, fun s => ?_, fun s => ?_, fun s => ?_, fun s => ?_,
    fun s => ?_, fun s => ?_, fun s => ?_, fun s => ?_, fun s => ?_, fun s => ?_⟩ <;>
    simp only [AUCP.eval, CHAU.eval, CLUST.eval, EB.eval, FILTER.eval,
      FWFM.eval, GESD.eval, MAD.eval, META.eval, MOLL.eval, MTT.eval,
      check_scores, if_neg hne, bind_ok, hn, bind_error]

/-- C7 witness: the spec's Scenario C array `[5,5,5,5,5]`. -/
theorem C7_degenerate_all_witness :
    AUCP.eval E0 ⟨none⟩ [5, 5, 5, 5, 5] = .error .degenerate ∧
    CHAU.eval E0 ⟨.mean, none⟩ [5, 5, 5, 5, 5] = .error .degenerate ∧
    CLUST.eval E0 ⟨.spec, some 1234, none⟩ [5, 5, 5, 5, 5] = .error .degenerate ∧
    EB.eval E0 ⟨none⟩ [5, 5, 5, 5, 5] = .error .degenerate ∧
    FILTER.eval E0 ⟨.wiener, none, none⟩ [5, 5, 5, 5, 5] = .error .degenerate ∧
    FWFM.eval E0 ⟨1234, none, none⟩ [5, 5, 5, 5, 5] = .error .degenerate ∧
    GESD.eval E0 ⟨none, 1/20, none⟩ [5, 5, 5, 5, 5] = .error .degenerate ∧
    MAD.eval E0 ⟨none⟩ [5, 5, 5, 5, 5] = .error .degenerate ∧
    META.eval E0 ⟨.GNB, none⟩ [5, 5, 5, 5, 5] = .error .degenerate ∧
    MOLL.eval E0 ⟨none⟩ [5, 5, 5, 5, 5] = .error .degenerate ∧
    MTT.eval E0 ⟨99/100, none⟩ [5, 5, 5, 5, 5] = .error .degenerate := by
  obtain ⟨h1, h2, h3, h4, h5, h6, h7, h8, h9, h10, h11⟩ :=
    C7_degenerate_all E0 5 [5, 5, 5, 5, 5] (by decide) (by decide)
  exact ⟨h1 _, h2 _, h3 _, h4 _, h5 _, h6 _, h7 _, h8 _, h9 _, h10 _, h11 _⟩

/-- C1 counterexample: a GESD instance constructed with
`max_outliers='native'` (modelled `none`) has that field overwritten to
`int(n/2) = 1` by its first eval on the two-point input `[0, 1]`, so the
instance state is not unchanged-except-`thresh_` and a second call would
observe `1`, not the constructed `'native'`. -/
theorem C1_counterexample :
    GESD.eval E0 ⟨none, 1/20, none⟩ [0, 1] =
      .ok (⟨some 1, 1/20, some (11/10)⟩, [0, 0]) ∧
    (⟨some 1, 1/20, some (11/10)⟩ : GESD).max_outliers ≠
      (⟨none, 1/20, none⟩ : GESD).max_outliers :=
  ⟨by norm_num [GESD.eval, normalize, listMin, listMax, gesdLoop, calc_crit,
      grubbs_stat, argmaxIdx, npVar, npMean, cut, E0, gtO, bind_ok, bind_error,
      min_def, max_def],
   by decide⟩

/-- C1 amended: a successful eval leaves every configuration field
unchanged — except that a GESD instance constructed with `'native'`
permanently overwrites `max_outliers` with `int(n/2)` (one constructed
with an integer cap keeps it), and FWFM records `dscores_` alongside
`thresh_`. -/
theorem C1_frame :
    (∀ (E : Ext) (k : ℕ) (a : ℚ) (t : Option ℚ) (d : List ℚ) (st : GESD) (l : List ℕ),
        GESD.eval E ⟨some k, a, t⟩ d = .ok (st, l) →
        st.max_outliers = some k ∧ st.alpha = a) ∧
    (∀ (E : Ext) (a : ℚ) (t : Option ℚ) (d : List ℚ) (st : GESD) (l : List ℕ),
        GESD.eval E ⟨none, a, t⟩ d = .ok (st, l) →
        st.max_outliers = some (d.length / 2) ∧ st.alpha = a) ∧
    (∀ (E : Ext) (a : ℚ) (t : Option ℚ) (d : List ℚ) (st : MTT) (l : List ℕ),
        MTT.eval E ⟨a, t⟩ d = .ok (st, l) → st.alpha = a) ∧
    (∀ (E : Ext) (m : ChauMethod) (t : Option ℚ) (d : List ℚ) (st : CHAU) (l : List ℕ),
        CHAU.eval E ⟨m, t⟩ d = .ok (st, l) → st.method = m) ∧
    (∀ (E : Ext) (m : CMethod) (r : Option ℤ) (t : Option ℚ) (d : List ℚ)
        (st : CLUST) (l : List ℕ),
        CLUST.eval E ⟨m, r, t⟩ d = .ok (st, l) →
        st.method = m ∧ st.random_state = r) ∧
    (∀ (E : Ext) (m : FMethod) (sg : Option ℚ) (t : Option ℚ) (d : List ℚ)
        (st : FILTER) (l : List ℕ),
        FILTER.eval E ⟨m, sg, t⟩ d = .ok (st, l) →
        st.method = m ∧ st.sigma = sg) ∧
    (∀ (E : Ext) (r : ℤ) (t : Option ℚ) (ds : Option (List ℚ)) (d : List ℚ)
        (st : FWFM) (l : List ℕ),
        FWFM.eval E ⟨r, t, ds⟩ d = .ok (st, l) → st.random_state = r) ∧
    (∀ (E : Ext) (m : MMethod) (t : Option ℚ) (d : List ℚ) (st : META) (l : List ℕ),
        META.eval E ⟨m, t⟩ d = .ok (st, l) → st.method = m) := by
  refine ⟨?_, ?_, ?_, ?_, ?_, ?_, ?_, ?_⟩
  · intro E k a t d st l h
    unfold GESD.eval at h
    obtain ⟨nd, hn, h⟩ := bind_eq_ok h
    have h2 := pure_eq_ok h
    rw [Prod.mk.injEq] at h2
    obtain ⟨h3, h4⟩ := h2
    subst h3
    exact ⟨rfl, rfl⟩
  · intro E a t d st l h
    unfold GESD.eval at h
    obtain ⟨nd, hn, h⟩ := bind_eq_ok h
    have h2 := pure_eq_ok h
    rw [Prod.mk.injEq] at h2
    obtain ⟨h3, h4⟩ := h2
    subst h3
    refine ⟨?_, rfl⟩
    show some (nd.length / 2) = some (d.length / 2)
    rw [normalize_length hn]
  · intro E a t d st l h
    unfold MTT.eval at h
    obtain ⟨nd, hn, h⟩ := bind_eq_ok h
    have h2 := pure_eq_ok h
    rw [Prod.mk.injEq] at h2
    obtain ⟨h3, h4⟩ := h2
    subst h3
    rfl
  · intro E m t d st l h
    unfold CHAU.eval at h
    obtain ⟨nd, hn, h⟩ := bind_eq_ok h
    have h2 := pure_eq_ok h
    rw [Prod.mk.injEq] at h2
    obtain ⟨h3, h4⟩ := h2
    subst h3
    rfl
  · intro E m r t d st l h
    unfold CLUST.eval at h
    obtain ⟨nd, hn, h⟩ := bind_eq_ok h
    have h2 := pure_eq_ok h
    rw [Prod.mk.injEq] at h2
    obtain ⟨h3, h4⟩ := h2
    subst h3
    exact ⟨rfl, rfl⟩
  · intro E m sg t d st l h
    unfold FILTER.eval at h
    obtain ⟨nd, hn, h⟩ := bind_eq_ok h
    obtain ⟨limit, hm, h⟩ := bind_eq_ok h
    have h2 := pure_eq_ok h
    rw [Prod.mk.injEq] at h2
    obtain ⟨h3, h4⟩ := h2
    subst h3
    exact ⟨rfl, rfl⟩
  · intro E r t ds d st l h
    unfold FWFM.eval at h
    obtain ⟨d0, hcs, h⟩ := bind_eq_ok h
    obtain ⟨nd, hn, h⟩ := bind_eq_ok h
    obtain ⟨val, hk, h⟩ := bind_eq_ok h
    have h2 := pure_eq_ok h
    rw [Prod.mk.injEq] at h2
    obtain ⟨h3, h4⟩ := h2
    subst h3
    rfl
  · intro E m t d st l h
    unfold META.eval at h
    obtain ⟨nd, hn, h⟩ := bind_eq_ok h
    have h2 := pure_eq_ok h
    rw [Prod.mk.injEq] at h2
    obtain ⟨h3, h4⟩ := h2
    subst h3
    rfl

/-- C1 amended witness: concrete successful evals showing the preserved
fields at `E0`. -/
theorem C1_frame_witness :
    ((⟨some 1, 1/20, some (11/10)⟩ : GESD).max_outliers = some 1 ∧
      (⟨some 1, 1/20, some (11/10)⟩ : GESD).alpha = 1/20) ∧
    (⟨99/100, some (11/10)⟩ : MTT).alpha = 99/100 :=
  ⟨C1_frame.1 E0 1 (1/20) none [0, 1] ⟨some 1, 1/20, some (11/10)⟩ [0, 0]
      (by norm_num [GESD.eval, normalize, listMin, listMax, gesdLoop, calc_crit,
        grubbs_stat, argmaxIdx, npVar, npMean, cut, E0, gtO, bind_ok, bind_error,
        min_def, max_def]),
   C1_frame.2.2.1 E0 (99/100) none [0, 1] ⟨99/100, some (11/10)⟩ [0, 0]
      (by norm_num [MTT.eval, normalize, listMin, listMax, mttLoop, mttLoopF,
        mttCond, mttDelta, mttThres, npVar, npMean, npSort, cut, E0, gtO,
        bind_ok, bind_error, min_def, max_def, List.insertionSort,
        List.orderedInsert])⟩

/-- C2 counterexample: with five scores and a (legal) clustering backend
answer that puts the three smallest scores in group 1, the group-1 count 3
equals `ceil(5/2)` and the flip does *not* fire, so the larger group (three
members) stays labelled outlier — the returned labels have more 1s than
0s. -/
theorem C2_counterexample :
    CLUST.eval Ecex2 ⟨.kmeans, some 1234, none⟩ [0, 1/4, 1/2, 3/4, 1] =
      .ok (⟨.kmeans, some 1234, none⟩, [1, 1, 1, 0, 0]) ∧
    ([1, 1, 1, 0, 0] : List ℕ).count 0 < ([1, 1, 1, 0, 0] : List ℕ).count 1 := by
  constructor
  · norm_num [CLUST.eval, normalize, listMin, listMax, sklearn_eval, flipMaj,
      Ecex2, bind_ok, bind_error, min_def, max_def]
  · decide

/-- C2 amended: the flip fires exactly when the group-1 count strictly
exceeds `ceil(n/2) = (n+1)/2`; whenever the group-1 count is not exactly
`ceil(n/2)` for odd `n` (`2·count ≠ n+1`), the returned outlier group is a
weak minority.  In the excluded odd-tie case the strict majority keeps
label 1, as the counterexample shows. -/
theorem C2_amended :
    (∀ (lbls : List ℕ), (∀ x ∈ lbls, x ≤ 1) →
      (sklearn_eval lbls =
        if (lbls.length + 1) / 2 < lbls.count 1 then lbls.map (fun x => 1 - x)
        else lbls) ∧
      (2 * lbls.count 1 ≠ lbls.length + 1 →
        2 * (sklearn_eval lbls).count 1 ≤ lbls.length)) ∧
    (∀ (n : ℕ) (pred : List ℕ), 2 * (pyclustLabels pred n).count 1 ≠ n + 1 →
      2 * (pyclust_eval pred n).count 1 ≤ n) := by
  have main : ∀ (lbls : List ℕ), (∀ x ∈ lbls, x ≤ 1) →
      (sklearn_eval lbls =
        if (lbls.length + 1) / 2 < lbls.count 1 then lbls.map (fun x => 1 - x)
        else lbls) ∧
      (2 * lbls.count 1 ≠ lbls.length + 1 →
        2 * (sklearn_eval lbls).count 1 ≤ lbls.length) := by
    intro lbls h01
    have hsum : lbls.sum = lbls.count 1 := sum_eq_count_one h01
    have hflip := count_one_flip_add h01
    have hcle : lbls.count 1 ≤ lbls.length := List.count_le_length 1 lbls
    have hiff : sklearn_eval lbls =
        if (lbls.length + 1) / 2 < lbls.count 1 then lbls.map (fun x => 1 - x)
        else lbls := by
      unfold sklearn_eval flipMaj
      rw [hsum]
    refine ⟨hiff, fun hne => ?_⟩
    rw [hiff]
    by_cases hc : (lbls.length + 1) / 2 < lbls.count 1
    · rw [if_pos hc]
      omega
    · rw [if_neg hc]
      omega
  refine ⟨main, fun n pred hne => ?_⟩
  have h01 := pyclustLabels_le_one pred n
  have hlen := pyclustLabels_length pred n
  have := (main (pyclustLabels pred n) h01).2 (by rw [hlen]; exact hne)
  rw [hlen] at this
  exact this

/-- C2 amended witness: a four-point sklearn labelling with three 1s is
flipped and ends with a minority of 1s. -/
theorem C2_amended_witness : 2 * (sklearn_eval [1, 1, 1, 0]).count 1 ≤ 4 :=
  (C2_amended.1 [1, 1, 1, 0] (by decide)).2 (by decide)

/-- C9: through every flip-based dispatcher (`_pyclust_eval`,
`_sklearn_eval`, `_BGM_clust`) the returned labels have at most
`ceil(n/2)` ones; when the pre-flip group-1 count exceeds `ceil(n/2)` the
labels are flipped and the flipped count is strictly below `floor(n/2)`. -/
theorem C9_flip_bound :
    (∀ (lbls : List ℕ), (∀ x ∈ lbls, x ≤ 1) →
      (sklearn_eval lbls).count 1 ≤ (lbls.length + 1) / 2 ∧
      ((lbls.length + 1) / 2 < lbls.count 1 →
        sklearn_eval lbls = lbls.map (fun x => 1 - x) ∧
        (sklearn_eval lbls).count 1 < lbls.length / 2)) ∧
    (∀ (n : ℕ) (pred : List ℕ), (pyclust_eval pred n).count 1 ≤ (n + 1) / 2) := by
  have main : ∀ (lbls : List ℕ), (∀ x ∈ lbls, x ≤ 1) →
      (sklearn_eval lbls).count 1 ≤ (lbls.length + 1) / 2 ∧
      ((lbls.length + 1) / 2 < lbls.count 1 →
        sklearn_eval lbls = lbls.map (fun x => 1 - x) ∧
        (sklearn_eval lbls).count 1 < lbls.length / 2) := by
    intro lbls h01
    have hsum : lbls.sum = lbls.count 1 := sum_eq_count_one h01
    have hflip := count_one_flip_add h01
    have hcle : lbls.count 1 ≤ lbls.length := List.count_le_length 1 lbls
    have hiff : sklearn_eval lbls =
        if (lbls.length + 1) / 2 < lbls.count 1 then lbls.map (fun x => 1 - x)
        else lbls := by
      unfold sklearn_eval flipMaj
      rw [hsum]
    by_cases hc : (lbls.length + 1) / 2 < lbls.count 1
    · rw [hiff, if_pos hc]
      exact ⟨by omega, fun _ => ⟨rfl, by omega⟩⟩
    · rw [hiff, if_neg hc]
      exact ⟨by omega, fun hcc => absurd hcc hc⟩
  refine ⟨main, fun n pred => ?_⟩
  have h01 := pyclustLabels_le_one pred n
  have hlen := pyclustLabels_length pred n
  have := (main (pyclustLabels pred n) h01).1
  rw [hlen] at this
  exact this

/-- C9 witness: the flip case on four points. -/
theorem C9_flip_bound_witness :
    (sklearn_eval [1, 1, 1, 0]).count 1 ≤ 2 ∧
    (sklearn_eval [1, 1, 1, 0]).count 1 < 2 :=
  ⟨(C9_flip_bound.1 [1, 1, 1, 0] (by decide)).1,
   ((C9_flip_bound.1 [1, 1, 1, 0] (by decide)).2 (by decide)).2⟩

/-- C3: `CHAU.eval` computes the one-tailed criterion `1/|Φ⁻¹(1/(4n))|`
and cuts the array of erfc probabilities of the standardized deviations at
that criterion — and, as the concrete second part shows, that is not the
same label vector as cutting the normalized scores themselves. -/
theorem C3_chau_prob_cut :
    (∀ (E : Ext) (m : ChauMethod) (t : Option ℚ) (d nd : List ℚ),
      normalize d = .ok nd →
      CHAU.eval E ⟨m, t⟩ d =
        .ok (⟨m, some (1 / |E.normppf (1 / (4 * (nd.length : ℚ)))| *
                (1 - (listMin (nd.map (fun x =>
                  E.erfc (|x - chauCenter E m nd| / E.sqrt (npVar nd))))).getD 0) /
                (listMax (nd.map (fun x =>
                  E.erfc (|x - chauCenter E m nd| / E.sqrt (npVar nd))))).getD 0)⟩,
          cut (nd.map (fun x => E.erfc (|x - chauCenter E m nd| / E.sqrt (npVar nd))))
            (1 / |E.normppf (1 / (4 * (nd.length : ℚ)))|))) ∧
    (CHAU.eval Ecex3 ⟨.mean, none⟩ [0, 1] = .ok (⟨.mean, some (1/6)⟩, [1, 1]) ∧
      cut [0, 1] (1 / |Ecex3.normppf (1 / (4 * (2 : ℚ)))|) = [0, 1] ∧
      ([1, 1] : List ℕ) ≠ [0, 1]) := by
  refine ⟨fun E m t d nd hn => ?_, ?_, ?_, by decide⟩
  · unfold CHAU.eval
    rw [hn, bind_ok]
    rfl
  · norm_num [CHAU.eval, normalize, listMin, listMax, chauCenter, npMean,
      npVar, cut, Ecex3, bind_ok, bind_error, min_def, max_def, List.replicate]
  · norm_num [cut, Ecex3]

/-- C3 witness. -/
theorem C3_chau_prob_cut_witness :
    CHAU.eval E0 ⟨.mean, none⟩ [0, 1] =
      .ok (⟨.mean, some (1 / |E0.normppf (1 / (4 * (([0, 1] : List ℚ).length : ℚ)))| *
              (1 - (listMin (([0, 1] : List ℚ).map (fun x =>
                E0.erfc (|x - chauCenter E0 .mean [0, 1]| / E0.sqrt (npVar [0, 1]))))).getD 0) /
              (listMax (([0, 1] : List ℚ).map (fun x =>
                E0.erfc (|x - chauCenter E0 .mean [0, 1]| / E0.sqrt (npVar [0, 1]))))).getD 0)⟩,
        cut (([0, 1] : List ℚ).map (fun x =>
            E0.erfc (|x - chauCenter E0 .mean [0, 1]| / E0.sqrt (npVar [0, 1]))))
          (1 / |E0.normppf (1 / (4 * (([0, 1] : List ℚ).length : ℚ)))|)) :=
  C3_chau_prob_cut.1 E0 .mean none [0, 1] [0, 1]
    (by norm_num [normalize, listMin, listMax, min_def, max_def])

/-- C8: the labels of `CHAU.eval` come from cutting the probability array
at the unscaled criterion and do not depend on the stored `thresh_` (the
whole result is independent of it); the stored threshold is the rescaled
value `criterion * (1 - min prob) / max prob`, which concretely differs
from the cut point that produced the labels. -/
theorem C8_chau_stored_threshold :
    (∀ (E : Ext) (m : ChauMethod) (t t' : Option ℚ) (d : List ℚ),
      CHAU.eval E ⟨m, t⟩ d = CHAU.eval E ⟨m, t'⟩ d) ∧
    (∀ (E : Ext) (m : ChauMethod) (t : Option ℚ) (d nd : List ℚ),
      normalize d = .ok nd →
      (CHAU.eval E ⟨m, t⟩ d).map (fun r => r.1.thresh_) =
        .ok (some (1 / |E.normppf (1 / (4 * (nd.length : ℚ)))| *
          (1 - (listMin (nd.map (fun x =>
            E.erfc (|x - chauCenter E m nd| / E.sqrt (npVar nd))))).getD 0) /
          (listMax (nd.map (fun x =>
            E.erfc (|x - chauCenter E m nd| / E.sqrt (npVar nd))))).getD 0))) ∧
    (CHAU.eval Ecex3 ⟨.mean, none⟩ [0, 1] = .ok (⟨.mean, some (1/6)⟩, [1, 1]) ∧
      (1/6 : ℚ) ≠ 1 / |Ecex3.normppf (1 / (4 * (2 : ℚ)))|) := by
  refine ⟨fun E m t t' d => rfl, fun E m t d nd hn => ?_, ?_, ?_⟩
  · unfold CHAU.eval
    rw [hn, bind_ok]
    rfl
  · norm_num [CHAU.eval, normalize, listMin, listMax, chauCenter, npMean,
      npVar, cut, Ecex3, bind_ok, bind_error, min_def, max_def, List.replicate]
  · norm_num [Ecex3]

/-- C8 witness. -/
theorem C8_chau_stored_threshold_witness :
    (CHAU.eval E0 ⟨.mean, none⟩ [0, 1]).map (fun r => r.1.thresh_) =
      .ok (some (1 / |E0.normppf (1 / (4 * (([0, 1] : List ℚ).length : ℚ)))| *
        (1 - (listMin (([0, 1] : List ℚ).map (fun x =>
          E0.erfc (|x - chauCenter E0 .mean [0, 1]| / E0.sqrt (npVar [0, 1]))))).getD 0) /
        (listMax (([0, 1] : List ℚ).map (fun x =>
          E0.erfc (|x - chauCenter E0 .mean [0, 1]| / E0.sqrt (npVar [0, 1]))))).getD 0)) :=
  C8_chau_stored_threshold.2.1 E0 .mean none [0, 1] [0, 1]
    (by norm_num [normalize, listMin, listMax, min_def, max_def])

/-- C5 counterexample: GESD with cap `max_outliers = 1` on
`[0, 9/10, 19/20, 1]`.  The maximal studentized deviate is the *minimum*
score 0 (deviation is two-sided), the Grubbs test confirms it
(`Gs ≈ 1.7257 > Gc ≈ 1.4813`, with `t.ppf(0.99375, 2) ≈ 8.8602` and the
square roots matched to scipy/numpy to four decimals in `Ecex5`), so the
threshold drops to 0 and the returned labels contain three 1s — more than
the configured cap of one. -/
theorem C5_counterexample :
    GESD.eval Ecex5 ⟨some 1, 1/20, none⟩ [0, 9/10, 19/20, 1] =
      .ok (⟨some 1, 1/20, some 0⟩, [0, 1, 1, 1]) ∧
    1 < ([0, 1, 1, 1] : List ℕ).count 1 := by
  constructor
  · exact gesd_cap_violation_robust Ecex5 (443/50)
      (by norm_num [Ecex5]) (by norm_num [Ecex5]) (by norm_num [Ecex5])
      (by norm_num [Ecex5]) (by norm_num [Ecex5]) (by norm_num [Ecex5])
  · decide

/-- C5 amended: MTT never flags more elements than its loop removed (each
removal is one confirmed outlier): the number of 1s in the returned labels
plus the final working-array length is at most `n`.  (GESD, by the
counterexample, offers no such guarantee against its cap.) -/
theorem C5_amended :
    ∀ (E : Ext) (a : ℚ) (t : Option ℚ) (d nd : List ℚ) (st : MTT) (l : List ℕ),
      normalize d = .ok nd → MTT.eval E ⟨a, t⟩ d = .ok (st, l) →
      l.count 1 + (mttLoop E a (npSort nd) (11/10)).2.length ≤ nd.length := by
  intro E a t d nd st l hn h
  unfold MTT.eval at h
  obtain ⟨nd', hn', h⟩ := bind_eq_ok h
  rw [hn] at hn'
  obtain rfl : nd = nd' := Except.ok.inj hn'
  have h2 := pure_eq_ok h
  rw [Prod.mk.injEq] at h2
  obtain ⟨h3, h4⟩ := h2
  subst h4
  have hperm : (npSort nd).Perm nd := List.perm_insertionSort _ nd
  have hslen : (npSort nd).length = nd.length := List.length_insertionSort _ nd
  have hsorted : (npSort nd).Sorted (· ≤ ·) := List.sorted_insertionSort _ nd
  obtain ⟨lim', arr', heq, hcase⟩ :=
    mttLoopF_spec E a (npSort nd).length (npSort nd) (11/10)
  have hloop : mttLoop E a (npSort nd) (11/10) = (lim', arr') := heq
  rw [hloop]
  dsimp only
  rw [count_one_cut]
  have hcnt : nd.countP (fun x => decide (lim' < x))
      = (npSort nd).countP (fun x => decide (lim' < x)) :=
    (hperm.countP_eq _).symm
  rcases hcase with ⟨hl, ha⟩ | ⟨hlt, htake, hget⟩
  · subst hl
    subst ha
    have hz : nd.countP (fun x => decide ((11:ℚ)/10 < x)) = 0 := by
      rw [List.countP_eq_zero]
      intro y hy
      have hy1 : y ≤ 1 := normalize_le_one hn y hy
      simp only [decide_eq_true_eq]
      intro hy2
      linarith
    rw [hz, hslen]
    omega
  · have hbound := countP_lt_of_sorted (npSort nd) hsorted arr'.length lim' hget
    rw [hcnt]
    omega

/-- C5 amended witness. -/
theorem C5_amended_witness :
    ([0, 0] : List ℕ).count 1 +
      (mttLoop E0 (99/100) (npSort [0, 1]) (11/10)).2.length ≤
      ([0, 1] : List ℚ).length :=
  C5_amended E0 (99/100) none [0, 1] [0, 1] ⟨99/100, some (11/10)⟩ [0, 0]
    (by norm_num [normalize, listMin, listMax, min_def, max_def])
    (by norm_num [MTT.eval, normalize, listMin, listMax, mttLoop, mttLoopF,
      mttCond, mttDelta, mttThres, npVar, npMean, npSort, cut, E0, gtO,
      bind_ok, bind_error, min_def, max_def, List.insertionSort,
      List.orderedInsert])

/-- C10: when `t.ppf` is NaN at nonpositive degrees of freedom, the MTT
`while True` loop — which each iteration either shortens the sorted
working array by exactly one element or exits — always stops with at
least two elements left: it performs at most `n - 1` removals and never
empties the array. -/
theorem C10_mtt_loop_stops :
    ∀ (E : Ext), (∀ (q : ℚ) (df : ℤ), df ≤ 0 → E.tppf q df = none) →
    ∀ (a limit : ℚ) (arr : List ℚ), 2 ≤ arr.length →
      2 ≤ (mttLoop E a arr limit).2.length ∧
      (mttLoop E a arr limit).2 ≠ [] ∧
      arr.length - (mttLoop E a arr limit).2.length ≤ arr.length - 1 := by
  intro E hdf a limit arr h2
  unfold mttLoop
  have hb := mttLoopF_two_le E a hdf arr.length arr limit h2
  refine ⟨hb, ?_, by omega⟩
  intro hnil
  rw [hnil] at hb
  simp at hb

/-- C10 witness: on a two-element array the loop exits immediately. -/
theorem C10_mtt_loop_stops_witness :
    2 ≤ (mttLoop E0 (99/100) [0, 1] (11/10)).2.length ∧
    (mttLoop E0 (99/100) [0, 1] (11/10)).2 ≠ [] ∧
    ([0, 1] : List ℚ).length - (mttLoop E0 (99/100) [0, 1] (11/10)).2.length ≤
      ([0, 1] : List ℚ).length - 1 :=
  C10_mtt_loop_stops E0 E0_tppf_nan (99/100) (11/10) [0, 1] (by decide)

/-- C6 counterexample: on the two-point input `[0, 1]` with a density curve
`[0, 0, 0, 1]` rising towards the right end of the grid, no grid position's
tail area drops below the target (`f·total = 1/12` against tail areas of
`1/6`), and `AUCP.eval` raises the `ValueError` of the single-point tail
area instead of returning the all-inlier labels with threshold 1 that the
claim asserts. -/
theorem C6_counterexample :
    AUCP.eval Ecex6 ⟨none⟩ [0, 1] = .error .valueError := by
  norm_num [AUCP.eval, normalize, listMin, listMax, aucpScan, auc, trapzSum,
    linspace, List.range_succ, npMean, npMedian, npSort, cut, Ecex6, bind_ok,
    bind_error, min_def, max_def, List.insertionSort, List.orderedInsert,
    abs_of_nonneg]

/-- C6 amended: `AUCP.eval` computes the threshold by the left-to-right
tail scan; on the grid positions whose tail still has two points the scan
returns the first position whose tail area is strictly below
`f × total area` with `f = mean + |mean − median|`, and when no such
position exists it raises `ValueError` from the final single-point tail
area — the all-inlier default threshold 1 is unreachable. -/
theorem C6_amended :
    (∀ (E : Ext) (s : AUCP) (d nd val : List ℚ) (tot : ℚ),
      normalize d = .ok nd →
      normalize (E.kde nd 0 1 (nd.length * 2)) = .ok val →
      auc (linspace 0 1 (nd.length * 2)) val = .ok tot →
      AUCP.eval E s d =
        (aucpScan ((npMean nd + |npMean nd - npMedian nd|) * tot)
            (linspace 0 1 (nd.length * 2)) val) >>=
          (fun limit => pure (⟨some limit⟩, cut nd limit))) ∧
    (∀ (g v : List ℚ) (target : ℚ), g.length = v.length → 2 ≤ g.length →
      aucpScan target g v =
        (match aucpFirst target g v with
          | some j => .ok (g.getD j 0)
          | none => .error .valueError)) := by
  constructor
  · intro E s d nd val tot hn hv ht
    unfold AUCP.eval
    rw [hn, bind_ok]
    have hlen : nd.length = d.length := normalize_length hn
    rw [← hlen] at *
    rw [hv, bind_ok]
    dsimp only
    rw [ht, bind_ok]
  · exact aucpScan_spec

/-- C6 amended witness. -/
theorem C6_amended_witness :
    AUCP.eval Ecex6 ⟨none⟩ [0, 1] =
      (aucpScan ((npMean [0, 1] + |npMean [0, 1] - npMedian [0, 1]|) * (1/6))
          (linspace 0 1 (([0, 1] : List ℚ).length * 2)) [0, 0, 0, 1]) >>=
        (fun limit => pure (⟨some limit⟩, cut [0, 1] limit)) :=
  C6_amended.1 Ecex6 ⟨none⟩ [0, 1] [0, 1] [0, 0, 0, 1] (1/6)
    (by norm_num [normalize, listMin, listMax, min_def, max_def])
    (by norm_num [normalize, listMin, listMax, min_def, max_def, Ecex6])
    (by norm_num [auc, trapzSum, linspace, List.range_succ])

set_option maxRecDepth 4000

/-- C4: the Phase-2 selection of `EB.eval` is the left-to-right greedy
scan of the 5000 evenly spaced eccentricities: the scanned grid is
strictly increasing, a candidate overwrites the state exactly when its
inlier count is strictly closer to the Phase-1 median count than the best
so far (so on ties the earlier, lower-eccentricity candidate's threshold
is kept), and the scan is genuinely order-dependent — reversing the
candidate order can change the selected threshold, so this is not a
symmetric global-minimum search. -/
theorem C4_eb_greedy :
    (∀ (E : Ext) (s : EB) (d nd : List ℚ),
      normalize d = .ok nd →
      EB.eval E s d =
        (match (ebPhase2 nd ((npRound (npMedian ((List.range 5000).map
            (fun i => (ebCount nd (E.rnd i) : ℚ))))) : ℚ)).2 with
        | none => .error .nameError
        | some limit => .ok (⟨some limit⟩, cut nd limit))) ∧
    ((linspace 0 1 5000).Pairwise (· < ·)) ∧
    (∀ (d : List ℚ) (med close : ℚ) (lim : Option ℚ) (e : ℚ),
      (¬ |med - (ebCount d e : ℚ)| < |med - close| →
        ebStep d med (close, lim) e = (close, lim)) ∧
      (|med - (ebCount d e : ℚ)| < |med - close| →
        ebStep d med (close, lim) e = ((ebCount d e : ℚ), some (ebThr e)))) ∧
    ([(0 : ℚ), 1].foldl (ebStep [0, 1/2, 1] 2) (0, none) ≠
      [(1 : ℚ), 0].foldl (ebStep [0, 1/2, 1] 2) (0, none)) := by
  refine ⟨?_, ?_, ?_, ?_⟩
  · intro E s d nd hn
    unfold EB.eval
    rw [hn, bind_ok]
    dsimp only
    split
    · rfl
    · rfl
  · exact linspace_increasing 5000 (by norm_num)
  · refine fun d med close lim e => ⟨fun h => ?_, fun h => ?_⟩
    · unfold ebStep
      dsimp only
      rw [if_neg h]
    · unfold ebStep
      dsimp only
      rw [if_pos h]
  · norm_num [ebStep, ebCount, ebThr, cut, abs_of_nonneg, abs_of_nonpos,
      min_def, max_def]

/-- C4 witness: the composition at a concrete input, plus a concrete
strict-improvement step. -/
theorem C4_eb_greedy_witness :
    (EB.eval E0 ⟨none⟩ [0, 1] =
      (match (ebPhase2 [0, 1] ((npRound (npMedian ((List.range 5000).map
          (fun i => (ebCount [0, 1] (E0.rnd i) : ℚ))))) : ℚ)).2 with
      | none => .error .nameError
      | some limit => .ok (⟨some limit⟩, cut [0, 1] limit))) ∧
    ebStep [0, 1] 2 (0, none) 0 = ((ebCount [0, 1] 0 : ℚ), some (ebThr 0)) :=
  ⟨C4_eb_greedy.1 E0 ⟨none⟩ [0, 1] [0, 1]
      (by norm_num [normalize, listMin, listMax, min_def, max_def]),
   (C4_eb_greedy.2.2.1 [0, 1] 2 0 none 0).2
      (by norm_num [ebCount, ebThr, cut])⟩

end PyThresh
